import Mathlib

/-!
Verification development for the ZMultiField bit-packing codec.

The repository packs several bounded integer fields of an entity into a
single integer score for a sorted-set store.  The definitions below are a
shallow embedding of the Go sources multifield.go, multifieldset.go and
zmultifield.go: big.Int values become Int, uint64 bit counts become Nat,
and the store client is reduced to a presence flag, since the codec only
hands a computed score to the store.  The float64 MaxValue of a field is
used by the source only through a positive-infinity test and integer
truncation, so it is modelled as either infinity or an integer.
-/

deriving instance DecidableEq for Except

namespace ZMF

/-- Sort order constant (Go: Ascending SortOrder = 1). -/
def Ascending : Int := 1

/-- Sort order constant (Go: Descending SortOrder = -1). -/
def Descending : Int := -1

/-- Update type constant (Go: Incremental UpdateType = 1). -/
def Incremental : Int := 1

/-- Update type constant (Go: Replace UpdateType = 2). -/
def Replace : Int := 2

/-- MaxValue of a field: a float64 in Go, consumed only through
math.IsInf(v, 1) and truncation to uint64, hence modelled as plus
infinity or an integer value. -/
inductive MaxVal where
  | inf : MaxVal
  | fin (v : Int) : MaxVal
deriving DecidableEq

/-- Go zmultifield.Field.  The Go field named Sort is called sort here
because Sort is a Lean keyword. -/
structure Field where
  Name : String
  sort : Int
  MaxValue : MaxVal
  UpdateType : Int
deriving DecidableEq

/-- Bit length by halving, with a structural recursion bound so that the
kernel can evaluate it.  bitLenAux fuel n is the bit length of n for
every n below 2 ^ fuel. -/
def bitLenAux (fuel : Nat) (n : Nat) : Nat :=
  match fuel with
  | 0 => 0
  | fuel + 1 => if n = 0 then 0 else bitLenAux fuel (n / 2) + 1

/-- Bit length of a natural number (Go: bits.Len64, big.Int.BitLen on
nonnegative values).  Go evaluates these on machine words and on packed
scalars of at most around a hundred bits; the recursion bound 320 is
exact for every value below 2 ^ 320, far beyond every value occurring
in this development. -/
def bitLen (n : Nat) : Nat := bitLenAux 320 n

/-- Go zmultifield.BitCount: number of bits required to represent a value;
1 for values at most 0, else the bit length of the integer part. -/
def BitCount (n : Int) : Nat := if n ≤ 0 then 1 else bitLen n.toNat

/-- Go zmultifield.MaxBin: an integer with n low bits set to 1. -/
def MaxBin (n : Nat) : Int := if n = 0 then 0 else 2 ^ n - 1

/-- Go big.Int.Lsh: left shift, x * 2 ^ n. -/
def lsh (x : Int) (n : Nat) : Int := x * 2 ^ n

/-- Go big.Int.And.  Every use in this development has nonnegative
operands (masks and packed scores), where And is Nat.land. -/
def land (a b : Int) : Int := Int.ofNat (a.toNat &&& b.toNat)

/-- Go big.Int.Rsh.  Every use in this development has a nonnegative
shifted value, where Rsh is the Nat right shift. -/
def rsh (x : Int) (n : Nat) : Int := Int.ofNat (x.toNat >>> n)

/-- Go big.Int.BitLen: bit length of the absolute value. -/
def intBitLen (x : Int) : Nat := bitLen x.natAbs

/-- Go multiField: a Field together with its bit allocation. -/
structure multiField extends Field where
  bits : Nat
  position : Nat
  shiftValue : Nat
  mask : Int
  isMain : Bool
  maxAbsolute : Int
  multiplier : Int
deriving DecidableEq

/-- Go newMultiField: derive the provisional bit allocation of a field
from its declared maximum value and sort order. -/
def newMultiField (f : Field) : multiField :=
  let bm : Nat × Bool :=
    match f.MaxValue with
    | .inf => (53, true)
    | .fin v => (BitCount v, false)
  { toField := f
    bits := bm.1
    position := 0
    shiftValue := 0
    mask := MaxBin bm.1
    isMain := bm.2
    maxAbsolute := if bm.2 then 2 ^ 53 - 1 else MaxBin bm.1
    multiplier := if f.sort = Descending then -1 else 1 }

/-- Go multiField.defaultScore: maxAbsolute for descending fields, 0
otherwise. -/
def defaultScore (mf : multiField) : Int :=
  if mf.sort = Descending then mf.maxAbsolute else 0

/-- Go multiField.setIndex: record position and shift, move the mask into
place, and for the main field recompute bits and maxAbsolute from the
remaining headroom.  The source guards the mask rebuild with a bit-length
test and rebuilds it as MaxBin(53) shifted by shiftValue.  Go computes
bits as the uint64 difference 53 - shiftValue; every configuration in
this development has shiftValue at most 53, where Nat subtraction
agrees with uint64 subtraction. -/
def setIndex (mf : multiField) (position : Nat) (shiftValue : Nat) : multiField :=
  let mask := lsh mf.mask shiftValue
  if mf.isMain then
    let mask2 := if intBitLen mask > 53 then lsh (MaxBin 53) shiftValue else mask
    let bits := 53 - shiftValue
    { mf with position := position, shiftValue := shiftValue, mask := mask2,
              bits := bits, maxAbsolute := MaxBin bits }
  else
    { mf with position := position, shiftValue := shiftValue, mask := mask }

/-- Go MultiFieldSet, without the store client (the codec only computes
scores; fetching and persisting are the callers collaborator). -/
structure MultiFieldSet where
  fields : List multiField
  name : String
  defaultZScore : Int
deriving DecidableEq

/-- Go MultiFieldSetOptions.  The client is modelled as a presence flag:
true stands for a non-nil redis.UniversalClient. -/
structure MultiFieldSetOptions where
  Name : String
  Fields : List Field
  Client : Bool
deriving DecidableEq

/-- The index-assignment loop of Go New: fields are visited from the last
declared one upward, accumulating the running shift.  assignFrom i fs
processes the suffix of the field list starting at declaration index i
and also returns the total bit count of that suffix.  Go adds the bits
field after setIndex ran, so the possibly truncated width of a main
field is what accumulates. -/
def assignFrom : Nat → List multiField → List multiField × Nat
  | _, [] => ([], 0)
  | i, f :: rest =>
    let p := assignFrom (i + 1) rest
    let f2 := setIndex f i p.2
    (f2 :: p.1, p.2 + f2.bits)

/-- Go MultiFieldSet.scoresToZScore: sum of the per-field scores shifted
into their slots. -/
def scoresToZScore (fields : List multiField) (scores : List Int) : Int :=
  (List.zipWith (fun f s => lsh s f.shiftValue) fields scores).foldl (fun z x => z + x) 0

/-- Go New: validate the options, build the multiFields, assign indices
from the last declared field upward, and precompute the default zscore. -/
def New (opts : MultiFieldSetOptions) : Except String MultiFieldSet :=
  if opts.Name = "" then .error "name is required"
  else if opts.Fields = [] then .error "at least one field is required"
  else if opts.Client = false then .error "Redis client is required"
  else
    let fields := (assignFrom 0 (opts.Fields.map newMultiField)).1
    .ok { fields := fields
          name := opts.Name
          defaultZScore := scoresToZScore fields (fields.map defaultScore) }

/-- Go MultiFieldSet.extractFieldScore: mask out the slot of the field and
shift it down; a missing zscore yields the default score. -/
def extractFieldScore (field : multiField) (zscore : Option Int) : Int :=
  match zscore with
  | none => defaultScore field
  | some z => rsh (land z field.mask) field.shiftValue

/-- Go MultiFieldSet.getFieldScores: extract every field from a zscore. -/
def getFieldScores (fields : List multiField) (zscore : Option Int) : List Int :=
  fields.map (fun f => extractFieldScore f zscore)

/-- Go MultiFieldSet.GetFieldByName: first field with a matching name. -/
def GetFieldByName (fields : List multiField) (name : String) : Option multiField :=
  fields.find? (fun f => f.Name == name)

/-- The range check of Go IncreaseScore: after a field was updated, its
slot value must be nonnegative and at most maxAbsolute, else the whole
update errors out before anything reaches the store. -/
def checkRange (field : multiField) (scores : List Int) : Except String (List Int) :=
  let v := scores.getD field.position 0
  if v < 0 ∨ v > field.maxAbsolute then
    .error ("score " ++ toString v ++ " out of range for field " ++ field.Name)
  else .ok scores

/-- One iteration of the update loop of Go IncreaseScore: resolve the
field by name, scale the amount by the multiplier, apply the update mode
to the slot of the field, then range-check that slot.  Go truncates the
float64 amount with int64(incValue); amounts are modelled as integers. -/
def updateStep (fields : List multiField) (scores : List Int)
    (fieldName : String) (incValue : Int) : Except String (List Int) :=
  match GetFieldByName fields fieldName with
  | none => .error ("field " ++ fieldName ++ " not found")
  | some field =>
    let inc := incValue * field.multiplier
    if field.UpdateType = Incremental then
      checkRange field (scores.set field.position (scores.getD field.position 0 + inc))
    else if field.UpdateType = Replace then
      checkRange field (scores.set field.position (defaultScore field + inc))
    else .error "unknown update type"

/-- The update loop of Go IncreaseScore over the caller-supplied field
map.  Go iterates a map in unspecified order; the loop is modelled over
an association list, and map semantics means the field names are
pairwise distinct.  The first failing step aborts the loop. -/
def updateScores (fields : List multiField) :
    List (String × Int) → List Int → Except String (List Int)
  | [], scores => .ok scores
  | (n, a) :: rest, scores =>
    match updateStep fields scores n a with
    | .error e => .error e
    | .ok scores2 => updateScores fields rest scores2

/-- The starting per-field scores of Go IncreaseScore: the member-absent
branch (redis.Nil) starts from every default score, the member-present
branch unpacks the fetched zscore.  Go duplicates the identical update
loop in the two branches; the shared loop is factored out here. -/
def startScores (mfs : MultiFieldSet) (current : Option Int) : List Int :=
  match current with
  | none => mfs.fields.map defaultScore
  | some z => getFieldScores mfs.fields (some z)

/-- Go MultiFieldSet.IncreaseScore as a pure function of the fetched
zscore (none encodes redis.Nil).  The returned value is the zscore the
source hands to ZAdd and returns; an error result is returned before the
ZAdd call, so nothing is persisted on any error path. -/
def IncreaseScore (mfs : MultiFieldSet) (current : Option Int)
    (updates : List (String × Int)) : Except String Int :=
  match updateScores mfs.fields updates (startScores mfs current) with
  | .error e => .error e
  | .ok scores => .ok (scoresToZScore mfs.fields scores)

/-- Go MultiFieldSet.zscoreToAllFieldScores: extract every field and
reverse the complement of descending fields for display. -/
def zscoreToAllFieldScores (mfs : MultiFieldSet) (zscore : Int) : List (String × Int) :=
  mfs.fields.map (fun field =>
    let v := extractFieldScore field (some zscore)
    let v2 := if field.sort = Descending then field.maxAbsolute - v else v
    (field.Name, v2))

/-- Placeholder multiField used as the default of List.getD lookups in
theorem statements; never a field of a constructed codec. -/
def mfDefault : multiField := newMultiField { Name := "", sort := 0, MaxValue := .fin 0, UpdateType := 0 }

/-- Unwrap a successful New result; theorems always pair this with an
equation showing New succeeded. -/
def okCodec (e : Except String MultiFieldSet) : MultiFieldSet :=
  match e with
  | .ok m => m
  | .error _ => { fields := [], name := "", defaultZScore := 0 }

/-- The value the update loop writes into the slot of field f when it
processes an update of the given amount against the given scores: the
slot plus the scaled amount for Incremental fields, the default plus
the scaled amount for Replace fields. -/
def newPackedValue (f : multiField) (scores : List Int) (amount : Int) : Int :=
  if f.UpdateType = Incremental then scores.getD f.position 0 + amount * f.multiplier
  else if f.UpdateType = Replace then defaultScore f + amount * f.multiplier
  else 0

/-- The two-field leaderboard of the spec scenario: kills (Descending,
max 10000, Incremental) declared before deaths (Ascending, max 10000,
Incremental). -/
def kdOpts : MultiFieldSetOptions :=
  { Name := "lb"
    Fields := [ { Name := "kills", sort := Descending, MaxValue := .fin 10000, UpdateType := Incremental },
                { Name := "deaths", sort := Ascending, MaxValue := .fin 10000, UpdateType := Incremental } ]
    Client := true }

/-- A codec whose unbounded main field sits strictly between two bounded
fields: one bit above it, one bit below it. -/
def midMainOpts : MultiFieldSetOptions :=
  { Name := "bug"
    Fields := [ { Name := "a", sort := Ascending, MaxValue := .fin 1, UpdateType := Incremental },
                { Name := "m", sort := Ascending, MaxValue := .inf, UpdateType := Incremental },
                { Name := "b", sort := Ascending, MaxValue := .fin 1, UpdateType := Incremental } ]
    Client := true }

/-- An unbounded main field declared before one 8-bit bounded field, so
the main field receives shift offset 8 and must shed headroom. -/
def headroomOpts : MultiFieldSetOptions :=
  { Name := "hr"
    Fields := [ { Name := "m", sort := Ascending, MaxValue := .inf, UpdateType := Incremental },
                { Name := "s", sort := Ascending, MaxValue := .fin 255, UpdateType := Incremental } ]
    Client := true }

/-- A middle-main codec wide enough to exercise additivity of
Incremental updates on the bottom field b. -/
def addOpts : MultiFieldSetOptions :=
  { Name := "add"
    Fields := [ { Name := "a", sort := Ascending, MaxValue := .fin 1000000, UpdateType := Incremental },
                { Name := "m", sort := Ascending, MaxValue := .inf, UpdateType := Incremental },
                { Name := "b", sort := Ascending, MaxValue := .fin 1073741824, UpdateType := Incremental } ]
    Client := true }

/-- Options with a negative declared maximum and a pair of 30-bit fields
whose cumulative width, 60 bits, exceeds the 53-bit safe width. -/
def badSpecOpts : MultiFieldSetOptions :=
  { Name := "s"
    Fields := [ { Name := "neg", sort := Ascending, MaxValue := .fin (-5), UpdateType := Incremental },
                { Name := "w1", sort := Ascending, MaxValue := .fin 1073741823, UpdateType := Incremental },
                { Name := "w2", sort := Ascending, MaxValue := .fin 1073741823, UpdateType := Incremental } ]
    Client := true }

/-- A single Replace-mode field. -/
def replOpts : MultiFieldSetOptions :=
  { Name := "rp"
    Fields := [ { Name := "level", sort := Ascending, MaxValue := .fin 100, UpdateType := Replace } ]
    Client := true }

/-- C1: the claimed round trip fails on the code.  In the codec of
midMainOpts every value of the vector V = [1, 0, 0] is nonnegative and
at most the maxAbsolute of its field, yet unpacking the main field
(index 1) from the packed scalar returns 2 ^ 52 instead of V[1] = 0:
the mask of the main field still spans 53 bits from shift offset 1, so
it captures bit 53, which belongs to the field declared before the main
field. -/
theorem roundtrip_fails_for_middle_main :
    ((okCodec (New midMainOpts)).fields.getD 0 mfDefault).maxAbsolute = 1 ∧
    ((okCodec (New midMainOpts)).fields.getD 1 mfDefault).maxAbsolute = 2 ^ 52 - 1 ∧
    ((okCodec (New midMainOpts)).fields.getD 2 mfDefault).maxAbsolute = 1 ∧
    scoresToZScore (okCodec (New midMainOpts)).fields [1, 0, 0] = 2 ^ 53 ∧
    extractFieldScore ((okCodec (New midMainOpts)).fields.getD 1 mfDefault) (some (2 ^ 53)) = 2 ^ 52 ∧
    ((2 : Int) ^ 52) ≠ 0 := by decide

/-- C3: after offset assignment with shift 8, the main field of
headroomOpts has bitWidth 53 - 8 = 45 and maxAbsolute 2 ^ 45 - 1 as the
claim states, but its mask is still the full provisional 53-bit pattern
shifted by 8, not the truncated 45-bit pattern the claim (and the
comment in the source) describe. -/
theorem main_mask_not_truncated :
    ((okCodec (New headroomOpts)).fields.getD 0 mfDefault).shiftValue = 8 ∧
    ((okCodec (New headroomOpts)).fields.getD 0 mfDefault).bits = 45 ∧
    ((okCodec (New headroomOpts)).fields.getD 0 mfDefault).maxAbsolute = 2 ^ 45 - 1 ∧
    ((okCodec (New headroomOpts)).fields.getD 0 mfDefault).mask = lsh (MaxBin 53) 8 ∧
    lsh (MaxBin 53) 8 ≠ lsh (MaxBin 45) 8 := by decide

/-- C5 counterexample: in the kills/deaths codec the least-significant
field (deaths, shift 0, declared last) has position 1, not 0, and
position 0 belongs to the most-significant first-declared field kills
(shift 14), refuting the claim that position is the 0-based index in
storage order with position 0 least significant. -/
theorem position_not_storage_order :
    ((okCodec (New kdOpts)).fields.getD 1 mfDefault).shiftValue = 0 ∧
    ((okCodec (New kdOpts)).fields.getD 1 mfDefault).position = 1 ∧
    ((okCodec (New kdOpts)).fields.getD 0 mfDefault).shiftValue = 14 ∧
    ((okCodec (New kdOpts)).fields.getD 0 mfDefault).position = 0 ∧
    (1 : Nat) ≠ 0 := by decide

/-- C7: the concrete two-field scenario of the spec.  deaths gets 14
bits at shift 0; kills gets 14 bits at shift 14; from an absent member
the update with kills +5 and deaths +2 (either processing order of the
Go map) packs to 16378 * 2 ^ 14 + 2 = 268337154, whose raw slots hold
deaths = 2 and kills = maxAbsolute - 5 = 16378, and whose presentation
after the descending complement reversal is kills = 5, deaths = 2. -/
theorem kills_deaths_scenario :
    ((okCodec (New kdOpts)).fields.getD 1 mfDefault).bits = 14 ∧
    ((okCodec (New kdOpts)).fields.getD 1 mfDefault).shiftValue = 0 ∧
    ((okCodec (New kdOpts)).fields.getD 0 mfDefault).bits = 14 ∧
    ((okCodec (New kdOpts)).fields.getD 0 mfDefault).shiftValue = 14 ∧
    IncreaseScore (okCodec (New kdOpts)) none [("kills", 5), ("deaths", 2)] = .ok 268337154 ∧
    IncreaseScore (okCodec (New kdOpts)) none [("deaths", 2), ("kills", 5)] = .ok 268337154 ∧
    extractFieldScore ((okCodec (New kdOpts)).fields.getD 1 mfDefault) (some 268337154) = 2 ∧
    ((okCodec (New kdOpts)).fields.getD 0 mfDefault).maxAbsolute = 16383 ∧
    extractFieldScore ((okCodec (New kdOpts)).fields.getD 0 mfDefault) (some 268337154) = 16383 - 5 ∧
    zscoreToAllFieldScores (okCodec (New kdOpts)) 268337154 = [("kills", 5), ("deaths", 2)] := by decide

/-- C9: additivity of Incremental mode fails on the code for the codec
of addOpts.  Starting from the packed scalar of the in-range vector
[1, 0, 0], updating field b by +100 and then by +50 ends at
2 ^ 55 + 150, while the single update by +150 ends at 2 ^ 54 + 150,
although every checked value is in range: the overlapping main-field
mask makes the first repack double the contribution of bit 53. -/
theorem incremental_not_additive :
    scoresToZScore (okCodec (New addOpts)).fields [1, 0, 0] = 2 ^ 53 ∧
    IncreaseScore (okCodec (New addOpts)) (some (2 ^ 53)) [("b", 100)] = .ok (2 ^ 54 + 100) ∧
    IncreaseScore (okCodec (New addOpts)) (some (2 ^ 54 + 100)) [("b", 50)] = .ok (2 ^ 55 + 150) ∧
    IncreaseScore (okCodec (New addOpts)) (some (2 ^ 53)) [("b", 150)] = .ok (2 ^ 54 + 150) ∧
    ((2 : Int) ^ 55 + 150) ≠ 2 ^ 54 + 150 := by decide

/-- setIndex always records the position it is given. -/
theorem setIndex_position (mf : multiField) (p s : Nat) : (setIndex mf p s).position = p := by
  unfold setIndex
  split <;> rfl

/-- assignFrom preserves the number of fields. -/
theorem assignFrom_length (fs : List multiField) (i : Nat) :
    ((assignFrom i fs).1).length = fs.length := by
  induction fs generalizing i with
  | nil => rfl
  | cons f rest ih => simp [assignFrom, ih]

/-- assignFrom assigns each field the position at which it sits in the
declaration list. -/
theorem assignFrom_positions (fs : List multiField) (i : Nat) :
    ((assignFrom i fs).1).map multiField.position = List.range' i fs.length := by
  induction fs generalizing i with
  | nil => rfl
  | cons f rest ih =>
    simp [assignFrom, List.range'_succ, setIndex_position, ih]

/-- The field list of a successfully constructed MultiFieldSet. -/
theorem New_ok_fields {opts : MultiFieldSetOptions} {mfs : MultiFieldSet}
    (h : New opts = .ok mfs) :
    mfs.fields = (assignFrom 0 (opts.Fields.map newMultiField)).1 := by
  unfold New at h
  split at h
  · exact absurd h (by simp)
  split at h
  · exact absurd h (by simp)
  split at h
  · exact absurd h (by simp)
  simp only [Except.ok.injEq] at h
  rw [← h]

/-- C5 amended: in every successfully constructed codec the position of
each FieldPlan is its 0-based declaration index, so position 0 is the
first-declared, most-significant field and positions grow toward the
least-significant, last-declared field. -/
theorem positions_are_declaration_indices (opts : MultiFieldSetOptions)
    (mfs : MultiFieldSet) (h : New opts = .ok mfs) :
    mfs.fields.map multiField.position = List.range mfs.fields.length := by
  rw [New_ok_fields h, assignFrom_positions, List.range_eq_range',
      assignFrom_length, List.length_map]

/-- C5 amended, witness: the kills/deaths codec has positions 0 and 1 in
declaration order. -/
theorem positions_are_declaration_indices_witness :
    (okCodec (New kdOpts)).fields.map multiField.position =
      List.range (okCodec (New kdOpts)).fields.length :=
  positions_are_declaration_indices kdOpts (okCodec (New kdOpts)) rfl

/-- C2 amended: New performs no field-specification validation at all:
for every options value with a nonempty name, a nonempty field list and
a present client it succeeds, no matter how the fields are declared
(negative maximum values and cumulative widths beyond the safe 53 bits
included). -/
theorem new_ok_of_valid_opts (opts : MultiFieldSetOptions)
    (h1 : opts.Name ≠ "") (h2 : opts.Fields ≠ []) (h3 : opts.Client = true) :
    ∃ mfs, New opts = .ok mfs := by
  unfold New
  rw [if_neg h1, if_neg h2, h3, if_neg (by simp)]
  exact ⟨_, rfl⟩

/-- C2 amended, witness: the bad specification from badSpecOpts (negative
maximum, 60 cumulative bits) is accepted because name, fields and client
are present. -/
theorem new_ok_of_valid_opts_witness : ∃ mfs, New badSpecOpts = .ok mfs :=
  new_ok_of_valid_opts badSpecOpts (by decide) (by decide) rfl

/-- C10: New returns an error exactly when the options carry an empty
name, an empty field list, or no client; every other input, including
fields with negative MaxValue and fixed-width fields whose total bit
width exceeds 53, yields a MultiFieldSet with no error. -/
theorem new_error_iff_invalid_opts (opts : MultiFieldSetOptions) :
    (∃ e, New opts = .error e) ↔
      (opts.Name = "" ∨ opts.Fields = [] ∨ opts.Client = false) := by
  unfold New
  by_cases h1 : opts.Name = ""
  · simp [h1]
  rw [if_neg h1]
  by_cases h2 : opts.Fields = []
  · simp [h1, h2]
  rw [if_neg h2]
  by_cases h3 : opts.Client = false
  · simp [h1, h2, h3]
  · have h3b : opts.Client = true := by
      cases hc : opts.Client
      · exact absurd hc h3
      · rfl
    rw [h3b]
    simp [h1, h2]

/-- C10 witness: an options value missing everything is rejected, and
the bad field specification with name, fields and client present is
accepted. -/
theorem new_error_iff_invalid_opts_witness :
    (∃ e, New { Name := "", Fields := [], Client := false } = .error e) ∧
    ¬ (∃ e, New badSpecOpts = .error e) := by
  constructor
  · exact (new_error_iff_invalid_opts _).mpr (Or.inl rfl)
  · intro h
    rcases (new_error_iff_invalid_opts _).mp h with hbad | hbad | hbad <;>
      simp [badSpecOpts] at hbad

/-- The starting score vector has one entry per field on both the
absent-member and the existing-member path. -/
theorem startScores_length (mfs : MultiFieldSet) (current : Option Int) :
    (startScores mfs current).length = mfs.fields.length := by
  cases current <;> simp [startScores, getFieldScores]

/-- C8: for a field resolved by name whose updateMode is Replace, an
update with amount a writes defaultValue + a * multiplier into the slot
of the field, relative to the default rather than overwriting with a,
and uniformly in the fetched scalar: current = none is the
absent-member path, current = some z the existing-member path. -/
theorem replace_writes_default_plus_delta (mfs : MultiFieldSet)
    (current : Option Int) (nm : String) (a : Int) (f : multiField)
    (hf : GetFieldByName mfs.fields nm = some f)
    (hmode : f.UpdateType = Replace)
    (hlt : f.position < mfs.fields.length)
    (hlo : 0 ≤ defaultScore f + a * f.multiplier)
    (hhi : defaultScore f + a * f.multiplier ≤ f.maxAbsolute) :
    IncreaseScore mfs current [(nm, a)] =
      .ok (scoresToZScore mfs.fields
        ((startScores mfs current).set f.position (defaultScore f + a * f.multiplier))) := by
  have hlt2 : f.position < (startScores mfs current).length := by
    rw [startScores_length]
    exact hlt
  have hgd : ((startScores mfs current).set f.position
      (defaultScore f + a * f.multiplier)).getD f.position 0 =
      defaultScore f + a * f.multiplier := by
    simp [List.getD_eq_getElem?_getD, List.getElem?_set_self hlt2]
  unfold IncreaseScore updateScores updateStep checkRange
  simp only [hf, hmode]
  rw [if_neg (by decide)]
  simp only [if_true, hgd]
  have hcond : ¬ (defaultScore f + a * f.multiplier < 0 ∨
      defaultScore f + a * f.multiplier > f.maxAbsolute) :=
    not_or.mpr ⟨not_lt.mpr hlo, not_lt.mpr hhi⟩
  rw [if_neg hcond]
  rfl

/-- C8 witness: in the single-field Replace codec of replOpts the
update level := 42 lands on default 0 + 42 on both the absent-member
path and the path starting from the stored scalar 7. -/
theorem replace_writes_default_plus_delta_witness :
    IncreaseScore (okCodec (New replOpts)) none [("level", 42)] = .ok 42 ∧
    IncreaseScore (okCodec (New replOpts)) (some 7) [("level", 42)] = .ok 42 := by
  constructor
  · exact (replace_writes_default_plus_delta (okCodec (New replOpts)) none "level" 42
      ((okCodec (New replOpts)).fields.getD 0 mfDefault) (by decide) (by decide)
      (by decide) (by decide) (by decide)).trans (by decide)
  · exact (replace_writes_default_plus_delta (okCodec (New replOpts)) (some 7) "level" 42
      ((okCodec (New replOpts)).fields.getD 0 mfDefault) (by decide) (by decide)
      (by decide) (by decide) (by decide)).trans (by decide)

/-- A field found by GetFieldByName is one of the fields and carries the
requested name. -/
theorem GetFieldByName_mem {fields : List multiField} {nm : String} {f : multiField}
    (h : GetFieldByName fields nm = some f) : f ∈ fields ∧ f.Name = nm := by
  unfold GetFieldByName at h
  refine ⟨List.mem_of_find?_eq_some h, ?_⟩
  have h2 := List.find?_some h
  simpa using h2

/-- When positions are the declaration indices, each field sits at its
own position and that position is within bounds. -/
theorem position_spec {fields : List multiField}
    (hpos : fields.map multiField.position = List.range fields.length)
    {g : multiField} (hg : g ∈ fields) :
    g.position < fields.length ∧ fields[g.position]? = some g := by
  obtain ⟨i, hi, hgi⟩ := List.getElem_of_mem hg
  have h2 := congrArg (fun l => l[i]?) hpos
  simp only [List.getElem?_map, List.getElem?_eq_getElem hi,
    List.getElem?_eq_getElem (show i < (List.range fields.length).length by simpa using hi),
    List.getElem_range, Option.map_some'] at h2
  have hpi : g.position = i := by
    rw [← hgi]
    exact Option.some.inj h2
  constructor
  · rw [hpi]
    exact hi
  · rw [hpi, List.getElem?_eq_getElem hi, hgi]

/-- When positions are the declaration indices, distinct fields occupy
distinct positions. -/
theorem position_inj {fields : List multiField}
    (hpos : fields.map multiField.position = List.range fields.length)
    {g1 g2 : multiField} (h1 : g1 ∈ fields) (h2 : g2 ∈ fields)
    (hp : g1.position = g2.position) : g1 = g2 := by
  have a1 := (position_spec hpos h1).2
  have a2 := (position_spec hpos h2).2
  rw [hp, a2] at a1
  exact (Option.some.inj a1).symm

/-- A single update step whose computed slot value is out of range ends
in an error. -/
theorem updateStep_bad (fields : List multiField) (scores : List Int)
    (nm : String) (amt : Int) (f : multiField)
    (hf : GetFieldByName fields nm = some f)
    (hlt : f.position < scores.length)
    (hbad : newPackedValue f scores amt < 0 ∨ newPackedValue f scores amt > f.maxAbsolute) :
    ∃ e, updateStep fields scores nm amt = .error e := by
  unfold updateStep checkRange
  simp only [hf]
  by_cases h1 : f.UpdateType = Incremental
  · rw [if_pos h1]
    have hgd : (scores.set f.position (scores.getD f.position 0 + amt * f.multiplier)).getD
        f.position 0 = scores.getD f.position 0 + amt * f.multiplier := by
      simp [List.getD_eq_getElem?_getD, List.getElem?_set_self hlt]
    have hbad2 : scores.getD f.position 0 + amt * f.multiplier < 0 ∨
        scores.getD f.position 0 + amt * f.multiplier > f.maxAbsolute := by
      simpa [newPackedValue, h1] using hbad
    rw [hgd, if_pos hbad2]
    exact ⟨_, rfl⟩
  · rw [if_neg h1]
    by_cases h2 : f.UpdateType = Replace
    · rw [if_pos h2]
      have hgd : (scores.set f.position (defaultScore f + amt * f.multiplier)).getD
          f.position 0 = defaultScore f + amt * f.multiplier := by
        simp [List.getD_eq_getElem?_getD, List.getElem?_set_self hlt]
      have hbad2 : defaultScore f + amt * f.multiplier < 0 ∨
          defaultScore f + amt * f.multiplier > f.maxAbsolute := by
        simpa [newPackedValue, h1, h2] using hbad
      rw [hgd, if_pos hbad2]
      exact ⟨_, rfl⟩
    · rw [if_neg h2]
      exact ⟨_, rfl⟩

/-- A successful update step found its field and only replaced the slot
of that field. -/
theorem updateStep_ok_shape {fields : List multiField} {scores : List Int}
    {nm : String} {amt : Int} {scores2 : List Int}
    (h : updateStep fields scores nm amt = .ok scores2) :
    ∃ g v, GetFieldByName fields nm = some g ∧ scores2 = scores.set g.position v := by
  unfold updateStep checkRange at h
  cases hg : GetFieldByName fields nm with
  | none =>
    simp [hg] at h
  | some g =>
    simp only [hg] at h
    split at h
    · split at h
      · simp at h
      · exact ⟨g, _, rfl, (Except.ok.inj h).symm⟩
    · split at h
      · split at h
        · simp at h
        · exact ⟨g, _, rfl, (Except.ok.inj h).symm⟩
      · simp at h

/-- The update loop errors out as soon as any of its updates computes an
out-of-range slot value, provided the updated field names are pairwise
distinct (Go map keys) and positions identify fields. -/
theorem updateScores_error_of_bad (fields : List multiField)
    (hinj : ∀ g1, g1 ∈ fields → ∀ g2, g2 ∈ fields → g1.position = g2.position → g1 = g2)
    (hplt : ∀ g, g ∈ fields → g.position < fields.length) :
    ∀ (updates : List (String × Int)) (scores : List Int),
      scores.length = fields.length →
      (updates.map Prod.fst).Nodup →
      ∀ nm amt, (nm, amt) ∈ updates →
      ∀ f, GetFieldByName fields nm = some f →
      (newPackedValue f scores amt < 0 ∨ newPackedValue f scores amt > f.maxAbsolute) →
      ∃ e, updateScores fields updates scores = .error e := by
  intro updates
  induction updates with
  | nil =>
    intro scores _ _ nm amt hmem
    exact absurd hmem (List.not_mem_nil _)
  | cons u rest ih =>
    obtain ⟨m, b⟩ := u
    intro scores hlen hnd nm amt hmem f hf hbad
    cases hstep : updateStep fields scores m b with
    | error e =>
      exact ⟨e, by unfold updateScores; rw [hstep]⟩
    | ok scores2 =>
      rcases List.mem_cons.mp hmem with heq | hmem2
      · injection heq with he1 he2
        subst he1
        subst he2
        have hflt : f.position < scores.length := by
          rw [hlen]
          exact hplt f (GetFieldByName_mem hf).1
        obtain ⟨e, he⟩ := updateStep_bad fields scores nm amt f hf hflt hbad
        rw [he] at hstep
        simp at hstep
      · obtain ⟨g, v, hg, hs2⟩ := updateStep_ok_shape hstep
        have hmn : m ≠ nm := by
          have hnodup := hnd
          simp only [List.map_cons] at hnodup
          intro hEq
          exact (List.nodup_cons.mp hnodup).1
            (hEq ▸ List.mem_map.mpr ⟨(nm, amt), hmem2, rfl⟩)
        have hfg : f ≠ g := by
          intro hEq
          apply hmn
          rw [← (GetFieldByName_mem hg).2, ← (GetFieldByName_mem hf).2, hEq]
        have hpp : g.position ≠ f.position := by
          intro hEq
          exact hfg (hinj f (GetFieldByName_mem hf).1 g (GetFieldByName_mem hg).1 hEq.symm)
        have hpres : newPackedValue f scores2 amt = newPackedValue f scores amt := by
          rw [hs2]
          unfold newPackedValue
          have hgd : (scores.set g.position v).getD f.position 0 = scores.getD f.position 0 := by
            simp [List.getD_eq_getElem?_getD, List.getElem?_set_ne hpp]
          rw [hgd]
        obtain ⟨e, he⟩ := ih scores2 (by rw [hs2]; simp [hlen])
          (by simp only [List.map_cons] at hnd; exact (List.nodup_cons.mp hnd).2)
          nm amt hmem2 f hf (by rw [hpres]; exact hbad)
        exact ⟨e, by unfold updateScores; rw [hstep]; exact he⟩

/-- C4: if any update in an IncreaseScore call computes a new packed
value below 0 or above the maxAbsolute of its field, the whole call
returns an error, so nothing is handed to the store: no partial field
write can be persisted on any error path.  The update names are
pairwise distinct because Go iterates a map, and positions identify
fields in every codec built by New
(positions_are_declaration_indices). -/
theorem increaseScore_out_of_range_aborts (mfs : MultiFieldSet)
    (hpos : mfs.fields.map multiField.position = List.range mfs.fields.length)
    (current : Option Int) (updates : List (String × Int))
    (hnd : (updates.map Prod.fst).Nodup)
    (nm : String) (amt : Int) (hmem : (nm, amt) ∈ updates)
    (f : multiField) (hf : GetFieldByName mfs.fields nm = some f)
    (hbad : newPackedValue f (startScores mfs current) amt < 0 ∨
            newPackedValue f (startScores mfs current) amt > f.maxAbsolute) :
    ∃ e, IncreaseScore mfs current updates = .error e := by
  have hinj : ∀ g1, g1 ∈ mfs.fields → ∀ g2, g2 ∈ mfs.fields →
      g1.position = g2.position → g1 = g2 :=
    fun g1 h1 g2 h2 hp => position_inj hpos h1 h2 hp
  have hplt : ∀ g, g ∈ mfs.fields → g.position < mfs.fields.length :=
    fun g hg => (position_spec hpos hg).1
  obtain ⟨e, he⟩ := updateScores_error_of_bad mfs.fields hinj hplt updates
    (startScores mfs current) (startScores_length mfs current) hnd nm amt hmem f hf hbad
  exact ⟨e, by unfold IncreaseScore; rw [he]⟩

/-- C4 witness: incrementing kills by 20000 from an absent member would
take the packed slot to 16383 - 20000 < 0, and IncreaseScore errors. -/
theorem increaseScore_out_of_range_aborts_witness :
    ∃ e, IncreaseScore (okCodec (New kdOpts)) none [("kills", 20000)] = .error e :=
  increaseScore_out_of_range_aborts (okCodec (New kdOpts)) (by decide) none
    [("kills", 20000)] (by decide) "kills" 20000 (by decide)
    ((okCodec (New kdOpts)).fields.getD 0 mfDefault) (by decide) (by decide)

/-- C6: for a codec with field A Descending declared first and field B
Ascending declared second, both bounded, two in-range assignments with
equal B values and a larger logical A value in the first pack to a
strictly smaller scalar: the Descending field stores the complement
maxAbsolute - logicalValue, so ascending scalar order realizes
descending logical order on the primary field. -/
theorem descending_primary_orders_scalars (setName nA nB : String)
    (maxA maxB : Int) (uA uB : Int) (mfs : MultiFieldSet)
    (h : New { Name := setName,
               Fields := [ { Name := nA, sort := Descending, MaxValue := .fin maxA, UpdateType := uA },
                           { Name := nB, sort := Ascending, MaxValue := .fin maxB, UpdateType := uB } ],
               Client := true } = .ok mfs)
    (aX aY b : Int) (hgt : aX > aY)
    (_hlo : 0 ≤ aY)
    (_hhiX : aX ≤ ((mfs.fields.getD 0 mfDefault).maxAbsolute))
    (_hblo : 0 ≤ b)
    (_hbhi : b ≤ ((mfs.fields.getD 1 mfDefault).maxAbsolute)) :
    scoresToZScore mfs.fields [(mfs.fields.getD 0 mfDefault).maxAbsolute - aX, b] <
      scoresToZScore mfs.fields [(mfs.fields.getD 0 mfDefault).maxAbsolute - aY, b] := by
  have hfields := New_ok_fields h
  simp only [List.map_cons, List.map_nil] at hfields
  rw [hfields]
  clear hfields h _hlo _hhiX _hblo _hbhi
  simp [assignFrom, newMultiField, setIndex, scoresToZScore, lsh,
        BitCount, MaxBin, Ascending, Descending, Incremental, Replace,
        List.getD_eq_getElem?_getD]
  split_ifs <;>
    nlinarith [pow_pos (show (0:Int) < 2 by norm_num) (bitLen maxB.toNat),
               pow_pos (show (0:Int) < 2 by norm_num) (bitLen maxA.toNat)]

/-- C6 witness: in the kills/deaths codec (Descending kills declared
first), kills 5 against kills 3 with equal deaths 2 packs strictly
lower. -/
theorem descending_primary_orders_scalars_witness :
    scoresToZScore (okCodec (New kdOpts)).fields
        [((okCodec (New kdOpts)).fields.getD 0 mfDefault).maxAbsolute - 5, 2] <
      scoresToZScore (okCodec (New kdOpts)).fields
        [((okCodec (New kdOpts)).fields.getD 0 mfDefault).maxAbsolute - 3, 2] :=
  descending_primary_orders_scalars "lb" "kills" "deaths" 10000 10000
    Incremental Incremental (okCodec (New kdOpts)) rfl 5 3 2
    (by decide) (by decide) (by decide) (by decide) (by decide)

/-- C2 counterexample: New accepts, without any error, a specification
with a negative declared maximum value and a pair of fixed-width fields
whose cumulative width (60 bits) exceeds the 53-bit safe width, so no
ConfigError is raised at construction time. -/
theorem new_accepts_bad_spec :
    (∃ mfs, New badSpecOpts = .ok mfs) ∧
    ((okCodec (New badSpecOpts)).fields.getD 0 mfDefault).bits = 1 ∧
    ((okCodec (New badSpecOpts)).fields.getD 1 mfDefault).bits = 30 ∧
    ((okCodec (New badSpecOpts)).fields.getD 2 mfDefault).bits = 30 := by
  exact ⟨⟨_, rfl⟩, by decide, by decide, by decide⟩

end ZMF
